import Mathlib

/-!
Shallow embedding of the grouping / filtering helpers of the `plane`
repository (src/unnamed/part_000) and verification of the frozen claims
about them.

JavaScript details carried over explicitly:
  * optional string arguments are `Option String`, and JS truthiness on a
    string (`if (s)`) is `jsTruthy` (false on `undefined`/`null` and on `""`);
  * the `issueKeyActions` object accumulator is an insertion-ordered
    association list: overwriting an existing key keeps its position,
    a new key is appended (`Object.values` = the list of values).
-/

namespace Plane

/-- JS truthiness of an optional string: `undefined`/`null` and `""` are falsy. -/
def jsTruthy : Option String → Bool
  | none => false
  | some s => s ≠ ""

/-- Modelled from the spec: the reserved ALL-ISSUES sentinel bucket key
(constant `ALL_ISSUES` imported from `@plane/constants`, not under src). -/
def ALL_ISSUES : String := "All Issues"

/-- The action kinds used by the grouped-issue planners (enum
`EIssueGroupedAction` from the issue store; only `ADD` and `DELETE` are
used by the code under verification). -/
inductive EIssueGroupedAction where
  | ADD
  | DELETE
deriving DecidableEq, Repr

/-- A planned index mutation: a bucket path and the action to perform there. -/
structure IssueKeyAction where
  path : List String
  action : EIssueGroupedAction
deriving DecidableEq, Repr

/-- The `{ADD: string[], DELETE: string[]}` pair produced by `getDifference`
and consumed by the two-dimension planner. -/
structure GroupActions where
  ADD : List String
  DELETE : List String
deriving DecidableEq, Repr

/-- `getGroupKey (groupId?, subGroupId?)` — compound key if both ids are
truthy and the sub-group id is not the literal string `"null"`, else the
group id if truthy, else the ALL-ISSUES sentinel. -/
def getGroupKey (groupId subGroupId : Option String) : String :=
  if jsTruthy groupId && jsTruthy subGroupId && subGroupId != some "null" then
    groupId.getD "" ++ "_" ++ subGroupId.getD ""
  else if jsTruthy groupId then groupId.getD ""
  else ALL_ISSUES

/-- `getGroupIssueKeyActions` — single-dimension planner: one ADD action per
add key followed by one DELETE action per delete key. -/
def getGroupIssueKeyActions (addArray deleteArray : List String) :
    List IssueKeyAction :=
  addArray.map (fun addKey => ⟨[addKey], .ADD⟩) ++
    deleteArray.map (fun deleteKey => ⟨[deleteKey], .DELETE⟩)

/-- One JS-object assignment `obj[k] = v` on an insertion-ordered
association list: overwriting an existing key keeps its position, a fresh
key is appended at the end. -/
def insertAction (m : List (String × IssueKeyAction)) (k : String)
    (v : IssueKeyAction) : List (String × IssueKeyAction) :=
  if k ∈ m.map Prod.fst then
    m.map (fun p => if p.1 = k then (p.1, v) else p)
  else m ++ [(k, v)]

/-- `getSubGroupIssueKeyActions` — two-dimension planner: four cross-product
passes accumulated into an object keyed by `getGroupKey`, returning the
object's values. -/
def getSubGroupIssueKeyActions (groupActionsArray subGroupActionsArray : GroupActions)
    (previousIssueGroupProperties currentIssueGroupProperties : List String)
    (previousIssueSubGroupProperties currentIssueSubGroupProperties : List String) :
    List IssueKeyAction :=
  let m : List (String × IssueKeyAction) := []
  -- group ADDs × current sub-group values
  let m := groupActionsArray.ADD.foldl (fun m addKey =>
    currentIssueSubGroupProperties.foldl (fun m subGroupProperty =>
      insertAction m (getGroupKey (some addKey) (some subGroupProperty))
        ⟨[addKey, subGroupProperty], .ADD⟩) m) m
  -- group DELETEs × previous sub-group values
  let m := groupActionsArray.DELETE.foldl (fun m deleteKey =>
    previousIssueSubGroupProperties.foldl (fun m subGroupProperty =>
      insertAction m (getGroupKey (some deleteKey) (some subGroupProperty))
        ⟨[deleteKey, subGroupProperty], .DELETE⟩) m) m
  -- sub-group ADDs × current group values
  let m := subGroupActionsArray.ADD.foldl (fun m addKey =>
    currentIssueGroupProperties.foldl (fun m groupProperty =>
      insertAction m (getGroupKey (some groupProperty) (some addKey))
        ⟨[groupProperty, addKey], .ADD⟩) m) m
  -- sub-group DELETEs × previous group values
  let m := subGroupActionsArray.DELETE.foldl (fun m deleteKey =>
    previousIssueGroupProperties.foldl (fun m groupProperty =>
      insertAction m (getGroupKey (some groupProperty) (some deleteKey))
        ⟨[groupProperty, deleteKey], .DELETE⟩) m) m
  m.map Prod.snd

/-- lodash `uniq` on strings (first-occurrence order), with an explicit
`seen` accumulator. -/
def uniqAux : List String → List String → List String
  | [], _ => []
  | x :: xs, seen =>
    if x ∈ seen then uniqAux xs seen else x :: uniqAux xs (x :: seen)

/-- lodash `uniq`: deduplicate keeping first occurrences. -/
def uniq (l : List String) : List String := uniqAux l []

/-- `getDifference (current, previous, action?)` — elements of `current`
missing from `previous` become ADD, elements of `previous` missing from
`current` become DELETE; when an action is requested only that list is
returned (deduplicated), the other forced empty. -/
def getDifference (current previous : List String)
    (action : Option EIssueGroupedAction := none) : GroupActions :=
  let ADD := current.filter (fun currentValue => !previous.contains currentValue)
  let DELETE := previous.filter (fun previousValue => !current.contains previousValue)
  match action with
  | none => ⟨ADD, DELETE⟩
  | some .ADD => ⟨uniq ADD, []⟩
  | some .DELETE => ⟨[], uniq DELETE⟩

/-- The issue fields the filter evaluator can touch (shape of `TIssue` from
`@plane/types`, restricted to the fields the verified code reads). -/
structure TIssue where
  id : String
  parent_id : Option String
  status : Option String
  priority : Option String
  assignee_ids : List String
  start_date : Option String
  target_date : Option String
deriving DecidableEq, Repr

/-- Issue attributes that filter fields can be mapped to. -/
inductive IssueAttr where
  | status
  | priority
  | assignee_ids
deriving DecidableEq, Repr

/-- An issue attribute's value is either single-valued or an array
(the `Array.isArray(issueValue)` branch in `getFilteredIssues`). -/
inductive IssueFieldValue where
  | single : Option String → IssueFieldValue
  | multi : List String → IssueFieldValue
deriving DecidableEq, Repr

/-- Dynamic attribute read `issue[issueKey]`. -/
def issueField (issue : TIssue) : IssueAttr → IssueFieldValue
  | .status => .single issue.status
  | .priority => .single issue.priority
  | .assignee_ids => .multi issue.assignee_ids

/-- Modelled from the spec: the lookup table `FILTER_TO_ISSUE_MAP` from
`@/constants/issue` is not under src; per the spec it is a closed,
compile-time mapping from filter-field name to the underlying issue
attribute. Modelled for the fields the claims exercise; unmapped filter
keys resolve to `none` and are skipped by the evaluator. -/
def FILTER_TO_ISSUE_MAP : List (String × IssueAttr) :=
  [("status", .status), ("priority", .priority), ("assignees", .assignee_ids)]

/-- The two reserved date filter keys (`'start_date' | 'target_date'`). -/
inductive TDateKey where
  | start_date
  | target_date
deriving DecidableEq, Repr

/-- The display-filter options read by the evaluator (`sub_issue` flag). -/
structure IIssueDisplayFilterOptions where
  sub_issue : Option Bool
deriving DecidableEq, Repr

/-- A filter specification: entries of filter-field name to a nullable list
of allowed values / date expressions (`Object.entries(filters)`). -/
def IIssueFilterOptions : Type := List (String × Option (List String))

/-- Read the date field named by `filterKey` off the issue. -/
def issueDateValue (issue : TIssue) : TDateKey → Option String
  | .start_date => issue.start_date
  | .target_date => issue.target_date

/-- `checkIssueDateFilter` — true on an empty expression list, false when the
issue's date value is falsy, otherwise every expression must match. The date
collaborator (`parseDateFilter` + `checkDateCriteria`, external per the spec)
is abstracted as the predicate `dateMatches filterValue issueDate`. -/
def checkIssueDateFilter (dateMatches : String → String → Bool) (issue : TIssue)
    (filterKey : TDateKey) (dateFilters : List String) : Bool :=
  if dateFilters.length = 0 then true
  else
    let issueDate := issueDateValue issue filterKey
    if !jsTruthy issueDate then false
    else dateFilters.all (fun filterValue => dateMatches filterValue (issueDate.getD ""))

/-- `getFilteredIssues` — returns the issues untouched when no filters object
is supplied; otherwise keeps an issue iff it passes the sub-issue display
check and every active filter field (dates via `checkIssueDateFilter`,
categorical fields via the filter-to-attribute mapping). -/
def getFilteredIssues (dateMatches : String → String → Bool) (issues : List TIssue)
    (filters : Option IIssueFilterOptions)
    (displayFilters : Option IIssueDisplayFilterOptions) : List TIssue :=
  match filters with
  | none => issues
  | some fs =>
    let activeFilters := fs.filter (fun kv =>
      match kv.2 with
      | some l => !l.isEmpty
      | none => false)
    issues.filter (fun issue =>
      if issue.parent_id.isSome &&
          (match displayFilters with
           | some d => d.sub_issue == some false
           | none => false) then false
      else if activeFilters.isEmpty then true
      else activeFilters.all (fun kv =>
        let filterKey := kv.1
        let filterValues := kv.2.getD []
        if filterKey = "start_date" then
          checkIssueDateFilter dateMatches issue .start_date filterValues
        else if filterKey = "target_date" then
          checkIssueDateFilter dateMatches issue .target_date filterValues
        else
          match FILTER_TO_ISSUE_MAP.lookup filterKey with
          | none => true
          | some attr =>
            match issueField issue attr with
            | .multi issueValue => filterValues.any (fun fv => issueValue.contains fv)
            | .single issueValue =>
              match issueValue with
              | some s => filterValues.contains s
              | none => false))

/-- The composed bucket key of a planned action, recovered from its path
components via `getGroupKey`. -/
def entryKey (e : IssueKeyAction) : String :=
  match e.path with
  | [a, b] => getGroupKey (some a) (some b)
  | [a] => getGroupKey (some a) none
  | _ => getGroupKey none none

/-- Accumulator invariant of the two-dimension planner: keys are distinct
and every stored action's path re-composes to the key it is stored under. -/
def goodMap (m : List (String × IssueKeyAction)) : Prop :=
  (m.map Prod.fst).Nodup ∧ ∀ p ∈ m, entryKey p.2 = p.1

/-- An issue with a parent, used to show the sub-issue display check is
skipped when no filters object is supplied. -/
def subIssueWithParent : TIssue :=
  ⟨"issue-sub", some "parent-1", some "done", some "high", [], none, none⟩

/-- The filter of the AND/OR law: status in {done, cancelled} and priority
in {high}. -/
def c6Filters : IIssueFilterOptions :=
  [("status", some ["done", "cancelled"]), ("priority", some ["high"])]

/-- An issue whose status passes the status filter but whose priority fails
the priority filter. -/
def c6ExcludedIssue : TIssue :=
  ⟨"issue-1", none, some "done", some "low", [], none, none⟩

/-- An issue passing both filter fields. -/
def c6IncludedIssue : TIssue :=
  ⟨"issue-2", none, some "done", some "high", [], none, none⟩

/-! ### Helper lemmas -/

/-- Folding a function that ignores its second argument changes nothing. -/
theorem foldl_id {α β : Type _} (l : List α) (m : β) :
    l.foldl (fun acc _ => acc) m = m := by
  induction l generalizing m with
  | nil => rfl
  | cons a l ih => exact ih m

theorem mem_uniqAux (x : String) :
    ∀ (l seen : List String), x ∈ uniqAux l seen ↔ x ∈ l ∧ x ∉ seen := by
  intro l
  induction l with
  | nil => simp [uniqAux]
  | cons a l ih =>
    intro seen
    by_cases ha : a ∈ seen
    · simp only [uniqAux, if_pos ha, ih, List.mem_cons]
      constructor
      · rintro ⟨hx, hs⟩
        exact ⟨Or.inr hx, hs⟩
      · rintro ⟨hx | hx, hs⟩
        · subst hx; exact absurd ha hs
        · exact ⟨hx, hs⟩
    · simp only [uniqAux, if_neg ha, List.mem_cons, ih]
      constructor
      · rintro (rfl | ⟨hx, hs⟩)
        · exact ⟨Or.inl rfl, ha⟩
        · exact ⟨Or.inr hx, fun hm => hs (Or.inr hm)⟩
      · rintro ⟨hx | hx, hs⟩
        · subst hx; exact Or.inl rfl
        · by_cases hxa : x = a
          · exact Or.inl hxa
          · refine Or.inr ⟨hx, fun hm => ?_⟩
            rcases hm with h | hm
            · exact hxa h
            · exact hs hm

theorem nodup_uniqAux : ∀ (l seen : List String), (uniqAux l seen).Nodup := by
  intro l
  induction l with
  | nil => intro seen; simp [uniqAux]
  | cons a l ih =>
    intro seen
    by_cases ha : a ∈ seen
    · rw [uniqAux, if_pos ha]; exact ih seen
    · rw [uniqAux, if_neg ha]
      refine List.Nodup.cons (fun hm => ?_) (ih (a :: seen))
      exact ((mem_uniqAux a l (a :: seen)).mp hm).2 (List.mem_cons_self _ _)

theorem mem_uniq (x : String) (l : List String) : x ∈ uniq l ↔ x ∈ l := by
  rw [uniq, mem_uniqAux]
  simp

theorem nodup_uniq (l : List String) : (uniq l).Nodup := nodup_uniqAux l []

/-! ### C1 — two-dimension cross-product coverage -/

/-- C1: with group values going `["A"]` to `["A","B"]` (group diff ADD =
`["B"]`) and sub-group values fixed at `["x","y"]` (empty sub-group diff),
the two-dimension planner returns ADD actions at paths `(B,x)` and `(B,y)`,
and no action whose path involves group `A`. -/
theorem getSubGroupIssueKeyActions_cross_product_coverage :
    (⟨["B", "x"], .ADD⟩ : IssueKeyAction) ∈
        getSubGroupIssueKeyActions ⟨["B"], []⟩ ⟨[], []⟩ ["A"] ["A", "B"] ["x", "y"] ["x", "y"] ∧
    (⟨["B", "y"], .ADD⟩ : IssueKeyAction) ∈
        getSubGroupIssueKeyActions ⟨["B"], []⟩ ⟨[], []⟩ ["A"] ["A", "B"] ["x", "y"] ["x", "y"] ∧
    ∀ e ∈ getSubGroupIssueKeyActions ⟨["B"], []⟩ ⟨[], []⟩ ["A"] ["A", "B"] ["x", "y"] ["x", "y"],
      "A" ∉ e.path := by
  decide

/-! ### C3 — empty-dimension edge case of the two-dimension planner -/

/-- C3 counterexample: with both sub-group value lists empty and group value
`"A"` removed, the planner returns no DELETE action at all (the claimed
group-only DELETE never appears). -/
theorem getSubGroupIssueKeyActions_no_delete_on_empty_sub :
    ¬ ∃ e ∈ getSubGroupIssueKeyActions ⟨[], ["A"]⟩ ⟨[], []⟩ ["A"] [] [] [],
        e.action = EIssueGroupedAction.DELETE := by
  decide

/-- C3 amended: when the previous and current sub-group value lists are both
empty (so the sub-group diff is empty too), every cross-product pass is over
an empty list and the planner returns no actions at all, whatever the group
diff says. -/
theorem getSubGroupIssueKeyActions_empty_sub_yields_nothing
    (groupActionsArray : GroupActions)
    (previousIssueGroupProperties currentIssueGroupProperties : List String) :
    getSubGroupIssueKeyActions groupActionsArray (getDifference [] [] none)
      previousIssueGroupProperties currentIssueGroupProperties [] [] = [] := by
  simp only [getSubGroupIssueKeyActions, getDifference, List.filter_nil, List.foldl_nil,
    foldl_id, List.map_nil]

/-! ### C4 — diff completeness -/

/-- C4 counterexample: with `current = []`, `previous = ["a"]`, the list
`getDifference(current, previous).ADD ++ previous` contains `"a"` while
`current ++ (previous ∩ current)` is empty, so the claimed set equality
fails. -/
theorem getDifference_claim_union_counterexample :
    ¬ ∀ x : String,
        (x ∈ (getDifference [] ["a"] none).ADD ++ ["a"] ↔
          x ∈ ([] : List String) ++ (["a"].inter ([] : List String))) := by
  intro h
  have h1 := (h "a").mp (by decide)
  exact absurd h1 (by decide)

/-- C4 amended: `getDifference(current, previous).ADD ∪ previous` set-equals
`current ∪ previous` (and symmetrically for DELETE), and every element in
exactly one of the two input lists lands in exactly one of ADD/DELETE,
never both. -/
theorem getDifference_completeness (current previous : List String) :
    (∀ x, x ∈ (getDifference current previous none).ADD ++ previous ↔
        x ∈ current ++ previous) ∧
    (∀ x, x ∈ (getDifference current previous none).DELETE ++ current ↔
        x ∈ previous ++ current) ∧
    (∀ x, x ∈ current → x ∉ previous →
        x ∈ (getDifference current previous none).ADD ∧
          x ∉ (getDifference current previous none).DELETE) ∧
    (∀ x, x ∈ previous → x ∉ current →
        x ∈ (getDifference current previous none).DELETE ∧
          x ∉ (getDifference current previous none).ADD) ∧
    (∀ x, ¬(x ∈ (getDifference current previous none).ADD ∧
        x ∈ (getDifference current previous none).DELETE)) := by
  have hADD : ∀ x, x ∈ (getDifference current previous none).ADD ↔
      x ∈ current ∧ x ∉ previous := by
    intro x; simp [getDifference]
  have hDEL : ∀ x, x ∈ (getDifference current previous none).DELETE ↔
      x ∈ previous ∧ x ∉ current := by
    intro x; simp [getDifference]
  refine ⟨fun x => ?_, fun x => ?_,
    fun x hc hp => ⟨(hADD x).mpr ⟨hc, hp⟩, fun hd => ((hDEL x).mp hd).2 hc⟩,
    fun x hp hc => ⟨(hDEL x).mpr ⟨hp, hc⟩, fun ha => ((hADD x).mp ha).2 hp⟩,
    fun x hx => ((hDEL x).mp hx.2).2 ((hADD x).mp hx.1).1⟩
  · rw [List.mem_append, List.mem_append, hADD]
    constructor
    · rintro (⟨hx, _⟩ | hx)
      · exact Or.inl hx
      · exact Or.inr hx
    · rintro (hx | hx)
      · by_cases hp : x ∈ previous
        · exact Or.inr hp
        · exact Or.inl ⟨hx, hp⟩
      · exact Or.inr hx
  · rw [List.mem_append, List.mem_append, hDEL]
    constructor
    · rintro (⟨hx, _⟩ | hx)
      · exact Or.inl hx
      · exact Or.inr hx
    · rintro (hx | hx)
      · by_cases hc : x ∈ current
        · exact Or.inr hc
        · exact Or.inl ⟨hx, hc⟩
      · exact Or.inr hx

/-- C4 witness: the amended completeness facts evaluated at concrete input
`current = ["a"]`, `previous = ["b"]`. -/
theorem getDifference_completeness_witness :
    ("a" ∈ (getDifference ["a"] ["b"] none).ADD ∧
      "a" ∉ (getDifference ["a"] ["b"] none).DELETE) ∧
    ("b" ∈ (getDifference ["a"] ["b"] none).DELETE ∧
      "b" ∉ (getDifference ["a"] ["b"] none).ADD) ∧
    ("a" ∈ (getDifference ["a"] ["b"] none).ADD ++ ["b"] ↔ "a" ∈ ["a"] ++ ["b"]) :=
  ⟨(getDifference_completeness ["a"] ["b"]).2.2.1 "a" (by decide) (by decide),
   (getDifference_completeness ["a"] ["b"]).2.2.2.1 "b" (by decide) (by decide),
   (getDifference_completeness ["a"] ["b"]).1 "a"⟩

/-! ### C5 — set-differ deduplication -/

/-- C5 counterexample: in the call form without an action argument,
duplicates in `current` survive into ADD — `getDifference(["a","a"], [])`
returns `ADD = ["a","a"]`, so an element can occur more than once. -/
theorem getDifference_no_action_keeps_duplicates :
    ¬ (getDifference ["a", "a"] [] none).ADD.Nodup := by
  decide

/-- C5 amended: only the call forms with an action argument deduplicate.
With `action = ADD` the returned ADD list is exactly the elements of
`current` absent from `previous`, each at most once; with `action = DELETE`
the ADD list is forced empty (and DELETE is deduplicated); without an action
the lists keep input multiplicity. -/
theorem getDifference_action_dedup (current previous : List String) :
    (getDifference current previous (some .ADD)).ADD.Nodup ∧
    (∀ x, x ∈ (getDifference current previous (some .ADD)).ADD ↔
        x ∈ current ∧ x ∉ previous) ∧
    (getDifference current previous (some .DELETE)).ADD = [] ∧
    (getDifference current previous (some .DELETE)).DELETE.Nodup := by
  refine ⟨nodup_uniq _, fun x => ?_, rfl, nodup_uniq _⟩
  simp [getDifference, mem_uniq]

/-- C5 witness: with duplicated input and `action = ADD`, the returned ADD
list is deduplicated and still characterised by membership. -/
theorem getDifference_action_dedup_witness :
    (getDifference ["a", "a"] [] (some .ADD)).ADD.Nodup ∧
    ("a" ∈ (getDifference ["a", "a"] [] (some .ADD)).ADD ↔
      "a" ∈ ["a", "a"] ∧ "a" ∉ ([] : List String)) ∧
    (getDifference ["a", "a"] [] (some .DELETE)).ADD = [] :=
  ⟨(getDifference_action_dedup ["a", "a"] []).1,
   (getDifference_action_dedup ["a", "a"] []).2.1 "a",
   (getDifference_action_dedup ["a", "a"] []).2.2.1⟩

/-! ### C9 — Key Composer contract -/

/-- C9 counterexample: with `groupId = "h"` and `subGroupId = ""` (both
supplied, sub-group not the literal `"null"`), the claim demands the
compound key `"h" ++ "_" ++ ""`, but the code treats the empty string as
falsy and returns just `"h"`. -/
theorem getGroupKey_empty_string_counterexample :
    getGroupKey (some "h") (some "") ≠ "h" ++ "_" ++ "" := by
  decide

/-- C9 amended: `getGroupKey` returns `groupId ++ "_" ++ subGroupId` when
both arguments are truthy (supplied and non-empty) and the sub-group id is
not the literal `"null"`; else the group id when it is truthy; else the
ALL-ISSUES sentinel — a total, deterministic function of its arguments. -/
theorem getGroupKey_cases (groupId subGroupId : Option String) :
    (jsTruthy groupId = true → jsTruthy subGroupId = true → subGroupId ≠ some "null" →
      getGroupKey groupId subGroupId = groupId.getD "" ++ "_" ++ subGroupId.getD "") ∧
    (jsTruthy groupId = true → (jsTruthy subGroupId = false ∨ subGroupId = some "null") →
      getGroupKey groupId subGroupId = groupId.getD "") ∧
    (jsTruthy groupId = false → getGroupKey groupId subGroupId = ALL_ISSUES) := by
  refine ⟨fun hg hs hn => ?_, fun hg hs => ?_, fun hg => ?_⟩
  · rw [getGroupKey, if_pos]
    simp [hg, hs, hn]
  · rcases hs with hs | hs
    · rw [getGroupKey, if_neg, if_pos hg]
      simp [hs]
    · rw [getGroupKey, if_neg, if_pos hg]
      simp [hs]
  · rw [getGroupKey, if_neg, if_neg (by simp [hg])]
    simp [hg]

/-- C9 witness: the amended cases evaluated at concrete inputs. -/
theorem getGroupKey_cases_witness :
    getGroupKey (some "g") (some "s") = "g" ++ "_" ++ "s" ∧
    getGroupKey (some "g") (some "null") = "g" ∧
    getGroupKey none (some "s") = ALL_ISSUES :=
  ⟨(getGroupKey_cases (some "g") (some "s")).1 (by decide) (by decide) (by decide),
   (getGroupKey_cases (some "g") (some "null")).2.1 (by decide) (Or.inr rfl),
   (getGroupKey_cases none (some "s")).2.2 (by decide)⟩

/-! ### C2 — deduplication by composed bucket key -/

theorem goodMap_nil : goodMap [] :=
  ⟨List.nodup_nil, fun p hp => absurd hp (List.not_mem_nil p)⟩

theorem insertAction_goodMap {m : List (String × IssueKeyAction)} {k : String}
    {v : IssueKeyAction} (hm : goodMap m) (hv : entryKey v = k) :
    goodMap (insertAction m k v) := by
  obtain ⟨hnd, hkeys⟩ := hm
  by_cases hk : k ∈ m.map Prod.fst
  · rw [insertAction, if_pos hk]
    refine ⟨?_, ?_⟩
    · have : (m.map (fun p => if p.1 = k then (p.1, v) else p)).map Prod.fst =
          m.map Prod.fst := by
        rw [List.map_map]
        refine List.map_congr_left fun p _ => ?_
        by_cases h : p.1 = k <;> simp [h]
      rw [this]
      exact hnd
    · intro p hp
      obtain ⟨q, hq, rfl⟩ := List.mem_map.mp hp
      by_cases h : q.1 = k
      · simp only [if_pos h]
        rw [hv, h]
      · simp only [if_neg h]
        exact hkeys q hq
  · rw [insertAction, if_neg hk]
    refine ⟨?_, ?_⟩
    · rw [List.map_append]
      rw [List.nodup_append]
      refine ⟨hnd, List.nodup_singleton _, fun a ha hb => ?_⟩
      simp only [List.map_cons, List.map_nil, List.mem_singleton] at hb
      rw [hb] at ha
      exact hk ha
    · intro p hp
      rcases List.mem_append.mp hp with hp | hp
      · exact hkeys p hp
      · rcases List.mem_singleton.mp hp with rfl
        exact hv

/-- A `foldl` step that preserves a predicate preserves it over the whole
fold. -/
theorem foldl_preserve {α M : Type _} (P : M → Prop) (f : M → α → M)
    (hf : ∀ m a, P m → P (f m a)) :
    ∀ (l : List α) (m : M), P m → P (l.foldl f m) := by
  intro l
  induction l with
  | nil => intro m hm; exact hm
  | cons a l ih => intro m hm; exact ih (f m a) (hf m a hm)

theorem goodMap_pairwise {m : List (String × IssueKeyAction)} (hm : goodMap m) :
    (m.map Prod.snd).Pairwise (fun e1 e2 => entryKey e1 ≠ entryKey e2) := by
  obtain ⟨hnd, hkeys⟩ := hm
  induction m with
  | nil => exact List.Pairwise.nil
  | cons p m ih =>
    rw [List.map_cons] at hnd ⊢
    obtain ⟨hp1, hnd'⟩ := List.nodup_cons.mp hnd
    refine List.Pairwise.cons (fun e2 he2 => ?_)
      (ih hnd' fun q hq => hkeys q (List.mem_cons_of_mem _ hq))
    obtain ⟨q, hq, rfl⟩ := List.mem_map.mp he2
    rw [hkeys p (List.mem_cons_self _ _), hkeys q (List.mem_cons_of_mem _ hq)]
    intro hEq
    exact hp1 (hEq ▸ List.mem_map_of_mem Prod.fst hq)

/-- C2: for every input, the two-dimension planner's result has at most one
entry per composed bucket key — recomposing the key from the path components
of any two distinct returned entries yields distinct keys (and hence
distinct paths). -/
theorem getSubGroupIssueKeyActions_key_dedup
    (groupActionsArray subGroupActionsArray : GroupActions)
    (previousIssueGroupProperties currentIssueGroupProperties : List String)
    (previousIssueSubGroupProperties currentIssueSubGroupProperties : List String) :
    (getSubGroupIssueKeyActions groupActionsArray subGroupActionsArray
        previousIssueGroupProperties currentIssueGroupProperties
        previousIssueSubGroupProperties currentIssueSubGroupProperties).Pairwise
      (fun e1 e2 => entryKey e1 ≠ entryKey e2 ∧ e1.path ≠ e2.path) := by
  have hstep : ∀ (a b : String) (act : EIssueGroupedAction)
      (m : List (String × IssueKeyAction)), goodMap m →
      goodMap (insertAction m (getGroupKey (some a) (some b)) ⟨[a, b], act⟩) :=
    fun a b act m hm => insertAction_goodMap hm rfl
  have h1 := foldl_preserve goodMap _
    (fun m addKey => foldl_preserve goodMap _
      (fun m subGroupProperty => hstep addKey subGroupProperty .ADD m)
      currentIssueSubGroupProperties m)
    groupActionsArray.ADD [] goodMap_nil
  have h2 := foldl_preserve goodMap _
    (fun m deleteKey => foldl_preserve goodMap _
      (fun m subGroupProperty => hstep deleteKey subGroupProperty .DELETE m)
      previousIssueSubGroupProperties m)
    groupActionsArray.DELETE _ h1
  have h3 := foldl_preserve goodMap _
    (fun m addKey => foldl_preserve goodMap _
      (fun m groupProperty => hstep groupProperty addKey .ADD m)
      currentIssueGroupProperties m)
    subGroupActionsArray.ADD _ h2
  have h4 := foldl_preserve goodMap _
    (fun m deleteKey => foldl_preserve goodMap _
      (fun m groupProperty => hstep groupProperty deleteKey .DELETE m)
      previousIssueGroupProperties m)
    subGroupActionsArray.DELETE _ h3
  refine List.Pairwise.imp ?_ (goodMap_pairwise h4)
  intro e1 e2 hne
  exact ⟨hne, fun hpath => hne (by rw [entryKey, entryKey, hpath])⟩

/-! ### C10 — undefined filters short-circuit -/

/-- C10: with `filters = undefined`, `getFilteredIssues` returns the input
list unchanged — in particular an issue with a non-null `parent_id` survives
even though `displayFilters.sub_issue` is `false`, because the function
returns before the per-issue sub-issue check. -/
theorem getFilteredIssues_undefined_filters :
    (∀ (dateMatches : String → String → Bool) (issues : List TIssue)
        (displayFilters : Option IIssueDisplayFilterOptions),
        getFilteredIssues dateMatches issues none displayFilters = issues) ∧
    subIssueWithParent ∈ getFilteredIssues (fun _ _ => false) [subIssueWithParent]
        none (some ⟨some false⟩) :=
  ⟨fun _ _ _ => rfl, by decide⟩

/-! ### C7 — sub-item display filter precedence -/

/-- C7: whenever a filters object is supplied, an issue with a non-null
parent reference is excluded as soon as `displayFilters.sub_issue` is
`false`, no matter what the categorical/date filters say. -/
theorem getFilteredIssues_sub_issue_precedence
    (dateMatches : String → String → Bool) (issues : List TIssue)
    (fs : IIssueFilterOptions) (d : IIssueDisplayFilterOptions) (issue : TIssue)
    (hparent : issue.parent_id.isSome = true) (hsub : d.sub_issue = some false) :
    issue ∉ getFilteredIssues dateMatches issues (some fs) (some d) := by
  intro hmem
  simp only [getFilteredIssues] at hmem
  have hpred := (List.mem_filter.mp hmem).2
  simp only [hparent, hsub] at hpred
  simp at hpred

/-- C7 witness: a concrete sub-issue is dropped by a filter call whose
categorical filters it would otherwise pass. -/
theorem getFilteredIssues_sub_issue_precedence_witness :
    subIssueWithParent.parent_id.isSome = true ∧
    subIssueWithParent ∉ getFilteredIssues (fun _ _ => false) [subIssueWithParent]
        (some [("status", some ["done"])]) (some ⟨some false⟩) :=
  ⟨by decide,
   getFilteredIssues_sub_issue_precedence (fun _ _ => false) [subIssueWithParent]
     [("status", some ["done"])] ⟨some false⟩ subIssueWithParent (by decide) rfl⟩

/-! ### C8 — date exclusion on missing value -/

/-- C8: a null `target_date` fails any configured (non-empty) `target_date`
date filter — `checkIssueDateFilter` returns `false`, so the evaluator
excludes the issue; an empty date-expression list passes immediately. -/
theorem checkIssueDateFilter_missing_date :
    (∀ (dateMatches : String → String → Bool) (issue : TIssue) (dateFilters : List String),
        issue.target_date = none → dateFilters ≠ [] →
        checkIssueDateFilter dateMatches issue .target_date dateFilters = false) ∧
    (∀ (dateMatches : String → String → Bool) (issue : TIssue) (filterKey : TDateKey),
        checkIssueDateFilter dateMatches issue filterKey [] = true) ∧
    (∀ (dateMatches : String → String → Bool) (issues : List TIssue)
        (displayFilters : Option IIssueDisplayFilterOptions) (issue : TIssue)
        (dateFilters : List String),
        issue.target_date = none → dateFilters ≠ [] →
        issue ∉ getFilteredIssues dateMatches issues
          (some [("target_date", some dateFilters)]) displayFilters) := by
  have hbase : ∀ (dateMatches : String → String → Bool) (issue : TIssue)
      (l : List String), issue.target_date = none → l ≠ [] →
      checkIssueDateFilter dateMatches issue .target_date l = false := by
    intro dateMatches issue l ht hl
    rw [checkIssueDateFilter, if_neg (by simpa using hl)]
    simp [issueDateValue, ht, jsTruthy]
  refine ⟨hbase, fun dateMatches issue k => by simp [checkIssueDateFilter],
    fun dateMatches issues displayFilters issue l ht hl hmem => ?_⟩
  have hle : l.isEmpty = false := by simpa using hl
  simp only [getFilteredIssues] at hmem
  have hpred := (List.mem_filter.mp hmem).2
  simp [hle, hbase dateMatches issue l ht hl] at hpred

/-- C8 witness: concrete issue with no target date, one date expression. -/
theorem checkIssueDateFilter_missing_date_witness :
    checkIssueDateFilter (fun _ _ => true)
        ⟨"issue-3", none, none, none, [], none, none⟩ .target_date ["2;weeks;after"] = false ∧
    checkIssueDateFilter (fun _ _ => true)
        ⟨"issue-3", none, none, none, [], none, none⟩ .start_date [] = true ∧
    (⟨"issue-3", none, none, none, [], none, none⟩ : TIssue) ∉
      getFilteredIssues (fun _ _ => true) [⟨"issue-3", none, none, none, [], none, none⟩]
        (some [("target_date", some ["2;weeks;after"])]) none :=
  ⟨checkIssueDateFilter_missing_date.1 _ _ _ rfl (by decide),
   checkIssueDateFilter_missing_date.2.1 _ _ _,
   checkIssueDateFilter_missing_date.2.2 _ _ _ _ _ rfl (by decide)⟩

/-! ### C6 — filter AND/OR law -/

/-- C6: under the filter `{status: ["done","cancelled"], priority: ["high"]}`
every included issue has status in {done, cancelled} AND priority high
(OR within a field's list, AND across fields), and the concrete issue with
status done but priority low is excluded. -/
theorem getFilteredIssues_and_or_law :
    (∀ (dateMatches : String → String → Bool) (issues : List TIssue)
        (displayFilters : Option IIssueDisplayFilterOptions) (issue : TIssue),
        issue ∈ getFilteredIssues dateMatches issues (some c6Filters) displayFilters →
        (issue.status = some "done" ∨ issue.status = some "cancelled") ∧
          issue.priority = some "high") ∧
    c6ExcludedIssue ∉ getFilteredIssues (fun _ _ => false) [c6ExcludedIssue]
        (some c6Filters) none := by
  refine ⟨fun dateMatches issues displayFilters issue hmem => ?_, by decide⟩
  simp only [getFilteredIssues, c6Filters] at hmem
  have hpred := (List.mem_filter.mp hmem).2
  simp [FILTER_TO_ISSUE_MAP, issueField, List.lookup] at hpred
  obtain ⟨-, hstat, hprio⟩ := hpred
  refine ⟨?_, ?_⟩
  · cases hs : issue.status with
    | none => rw [hs] at hstat; simp at hstat
    | some s =>
      rw [hs] at hstat
      simp at hstat
      rcases hstat with h | h
      · exact Or.inl (by rw [h])
      · exact Or.inr (by rw [h])
  · cases hp : issue.priority with
    | none => rw [hp] at hprio; simp at hprio
    | some s => rw [hp] at hprio; simp at hprio; rw [hprio]

/-- C6 witness: a concrete issue with status done and priority high is
included, and the conjunctive conclusion holds for it. -/
theorem getFilteredIssues_and_or_law_witness :
    c6IncludedIssue ∈ getFilteredIssues (fun _ _ => false) [c6IncludedIssue]
        (some c6Filters) none ∧
    (c6IncludedIssue.status = some "done" ∨ c6IncludedIssue.status = some "cancelled") ∧
      c6IncludedIssue.priority = some "high" :=
  ⟨by decide, getFilteredIssues_and_or_law.1 (fun _ _ => false) [c6IncludedIssue]
    none c6IncludedIssue (by decide)⟩

end Plane
